import Mathlib

/-!
Verification development for the transport and connection-management core of
the bacpypes repository (src/py34/bacpypes/tcp.py, src/py34/bacpypes/udp.py).

Shallow embedding conventions:
- byte strings are `List Nat`, addresses are `Nat` (opaque hashable ids);
- Python dicts keyed by addresses become total functions with default values
  (an absent key maps to `none`, an absent buffer to `[]`);
- methods become pure functions from the relevant state to the new state,
  together with the list of observable emissions (PDUs sent on, notifications
  to the service access point element);
- a Python `raise` becomes `Except.error`.
-/

namespace BacSpec

/-- Addresses are opaque hashable peer identifiers. -/
abbrev Addr := Nat

/-- A byte (the model never depends on the 0..255 bound). -/
abbrev Byte := Nat

/-- PDU from comm.py as used by tcp.py / udp.py: payload plus optional
source/destination addresses and opaque user data. -/
structure PDU where
  pduData : List Byte
  pduSource : Option Addr := none
  pduDestination : Option Addr := none
  pduUserData : Option Nat := none
  deriving DecidableEq, Repr

/-- The pluggable framer function of StreamToPacket: given a buffer it either
returns `(frame, remainder)` or signals incomplete with `none`. -/
abbrev Framer := List Byte → Option (List Byte × List Byte)

/-- Per-address byte buffers (Python dict with `get(addr, b'')` default). -/
abbrev BufferMap := Addr → List Byte

/-- Pointwise update of a buffer map (`streamBuffer[addr] = buff`). -/
def updBuf (σ : BufferMap) (a : Addr) (v : List Byte) : BufferMap :=
  fun b => if b = a then v else σ b

@[simp] lemma updBuf_same (σ : BufferMap) (a : Addr) (v : List Byte) :
    updBuf σ a v a = v := by
  simp [updBuf]

lemma updBuf_other (σ : BufferMap) (a b : Addr) (v : List Byte) (h : b ≠ a) :
    updBuf σ a v b = σ b := by
  simp [updBuf, h]

/-- The `while 1: packet = self.packetFn(buff) ...` loop of
`StreamToPacket.packetize`, with explicit fuel (the Python loop terminates
because a conforming framer consumes a strictly nonempty prefix each round;
the fuel used below, `length + 1`, is enough for any such framer). Returns
the list of extracted frames and the remaining buffer. -/
def chopFuel (fn : Framer) : Nat → List Byte → List (List Byte) × List Byte
  | 0, buff => ([], buff)
  | fuel + 1, buff =>
    match fn buff with
    | none => ([], buff)
    | some (f, r) => ((f :: (chopFuel fn fuel r).1), (chopFuel fn fuel r).2)

/-- The packetize extraction loop on a buffer. -/
def chopAll (fn : Framer) (buff : List Byte) : List (List Byte) × List Byte :=
  chopFuel fn (buff.length + 1) buff

/-- The framer contract from the spec: the framer is a pure function (it is a
Lean function), it either returns a strictly nonempty consumed prefix or
signals incomplete, and it is monotone: growing the buffer never changes or
un-consumes the already-consumed prefix. -/
structure FramerContract (fn : Framer) : Prop where
  consumes : ∀ b f r, fn b = some (f, r) → f ≠ [] ∧ f ++ r = b
  mono : ∀ b f r s, fn b = some (f, r) → fn (b ++ s) = some (f, r ++ s)

/-- F is a frame for the framer fn: on any buffer starting with F the framer
consumes exactly F. -/
def IsFrame (fn : Framer) (F : List Byte) : Prop :=
  ∀ s, fn (F ++ s) = some (F, s)

lemma fn_nil_none (fn : Framer) (hc : FramerContract fn) : fn [] = none := by
  cases h : fn [] with
  | none => rfl
  | some p =>
    obtain ⟨hne, happ⟩ := hc.consumes [] p.1 p.2 (by simpa using h)
    exact absurd (List.append_eq_nil.mp happ).1 hne

lemma frame_ne_nil (fn : Framer) (hc : FramerContract fn) (F : List Byte)
    (hF : IsFrame fn F) : F ≠ [] :=
  (hc.consumes F F [] (by simpa using hF [])).1

/-- A proper front part of a frame is incomplete for a conforming framer. -/
lemma frame_none_of_proper (fn : Framer) (hc : FramerContract fn)
    (G p : List Byte) (hG : IsFrame fn G) (hpre : p <+: G)
    (hlt : p.length < G.length) : fn p = none := by
  cases h : fn p with
  | none => rfl
  | some q =>
    exfalso
    obtain ⟨t, ht⟩ := hpre
    have h2 : fn (p ++ t) = some (q.1, q.2 ++ t) := hc.mono p q.1 q.2 t (by simpa using h)
    rw [ht] at h2
    have h3 : fn G = some (G, []) := by simpa using hG []
    rw [h3] at h2
    have hq1 : q.1 = G := (congrArg Prod.fst (Option.some.inj h2)).symm
    obtain ⟨hne, happ⟩ := hc.consumes p q.1 q.2 (by simpa using h)
    have : G.length + q.2.length = p.length := by
      have := congrArg List.length happ
      simpa [hq1] using this
    omega

/-- With fuel beyond the buffer length the chop loop result is
fuel-independent (each round of a conforming framer consumes at least one
byte). -/
lemma chopFuel_eq_of_lt (fn : Framer) (hc : FramerContract fn) :
    ∀ fuel buff, buff.length < fuel → chopFuel fn fuel buff = chopAll fn buff := by
  intro fuel
  induction fuel using Nat.strong_induction_on with
  | _ fuel ih =>
    intro buff hlen
    obtain ⟨m, rfl⟩ : ∃ m, fuel = m + 1 := ⟨fuel - 1, by omega⟩
    cases h : fn buff with
    | none => simp [chopAll, chopFuel, h]
    | some p =>
      obtain ⟨hf, hfr⟩ := hc.consumes buff p.1 p.2 h
      have hlen2 : p.2.length < buff.length := by
        have := congrArg List.length hfr
        have hf1 : 0 < p.1.length := List.length_pos.mpr hf
        simp at this
        omega
      have e1 : chopFuel fn m p.2 = chopAll fn p.2 := ih m (by omega) p.2 (by omega)
      have e2 : chopFuel fn buff.length p.2 = chopAll fn p.2 :=
        ih buff.length (by omega) p.2 hlen2
      simp [chopAll, chopFuel, h, e1, e2]

lemma chopFuel_succ_none (fn : Framer) {buff : List Byte} {fuel : Nat}
    (h : fn buff = none) : chopFuel fn (fuel + 1) buff = ([], buff) := by
  simp [chopFuel, h]

lemma chopFuel_succ_some (fn : Framer) {buff f r : List Byte} {fuel : Nat}
    (h : fn buff = some (f, r)) :
    chopFuel fn (fuel + 1) buff = ((f :: (chopFuel fn fuel r).1), (chopFuel fn fuel r).2) := by
  simp [chopFuel, h]

lemma chopAll_none (fn : Framer) {buff : List Byte} (h : fn buff = none) :
    chopAll fn buff = ([], buff) := by
  simp [chopAll, chopFuel, h]

/-- Chopping a buffer that starts with a frame extracts the frame first. -/
lemma chopAll_cons (fn : Framer) (hc : FramerContract fn) (F u : List Byte)
    (hF : IsFrame fn F) :
    chopAll fn (F ++ u) = ((F :: (chopAll fn u).1), (chopAll fn u).2) := by
  have hfn : fn (F ++ u) = some (F, u) := hF u
  have hne : F ≠ [] := frame_ne_nil fn hc F hF
  have hlen : u.length < (F ++ u).length := by
    have : 0 < F.length := List.length_pos.mpr hne
    simp [List.length_append]
    omega
  have heq : chopFuel fn (F ++ u).length u = chopAll fn u :=
    chopFuel_eq_of_lt fn hc (F ++ u).length u hlen
  show chopFuel fn ((F ++ u).length + 1) (F ++ u) = _
  rw [chopFuel_succ_some fn hfn, heq]

/-- Chopping a concatenation of frames followed by an incomplete tail yields
exactly those frames and leaves exactly the tail. -/
lemma chopAll_join (fn : Framer) (hc : FramerContract fn) :
    ∀ (Gs : List (List Byte)) (p : List Byte),
      (∀ F ∈ Gs, IsFrame fn F) → fn p = none →
      chopAll fn (Gs.flatten ++ p) = (Gs, p) := by
  intro Gs
  induction Gs with
  | nil =>
    intro p _ hp
    simpa using chopAll_none fn hp
  | cons G t ih =>
    intro p hF hp
    have hjoin : (G :: t).flatten ++ p = G ++ (t.flatten ++ p) := by
      simp [List.flatten]
    rw [hjoin, chopAll_cons fn hc G _ (hF G (List.mem_cons_self _ _)),
      ih p (fun F hFt => hF F (List.mem_cons_of_mem _ hFt)) hp]

/-- After the chop loop finishes, the retained remainder is incomplete. -/
lemma chopAll_rem_none_aux (fn : Framer) (hc : FramerContract fn) :
    ∀ n buff, buff.length ≤ n → fn (chopAll fn buff).2 = none := by
  intro n
  induction n with
  | zero =>
    intro buff h
    have hb : buff = [] := List.eq_nil_of_length_eq_zero (Nat.le_zero.mp h)
    subst hb
    have h0 := fn_nil_none fn hc
    simp [chopAll_none fn h0, h0]
  | succ n ih =>
    intro buff h
    cases hfn : fn buff with
    | none => simp [chopAll_none fn hfn, hfn]
    | some p =>
      obtain ⟨hf, hfr⟩ := hc.consumes buff p.1 p.2 hfn
      have hlen2 : p.2.length < buff.length := by
        have := congrArg List.length hfr
        have hf1 : 0 < p.1.length := List.length_pos.mpr hf
        simp at this
        omega
      have hstep : (chopAll fn buff).2 = (chopAll fn p.2).2 := by
        have e : chopFuel fn buff.length p.2 = chopAll fn p.2 :=
          chopFuel_eq_of_lt fn hc buff.length p.2 hlen2
        simp [chopAll, chopFuel, hfn, e]
      rw [hstep]
      exact ih p.2 (by omega)

lemma chopAll_rem_none (fn : Framer) (hc : FramerContract fn) (buff : List Byte) :
    fn (chopAll fn buff).2 = none :=
  chopAll_rem_none_aux fn hc buff.length buff le_rfl

/-- Decomposing a front part of a concatenation of nonempty frames: it is a
whole number of leading frames plus a proper front part of the next frame. -/
lemma split_concat :
    ∀ (Gs : List (List Byte)) (u v : List Byte),
      (∀ F ∈ Gs, F ≠ []) → u ++ v = Gs.flatten →
      ∃ Gs1 Gs2 p, Gs = Gs1 ++ Gs2 ∧ u = Gs1.flatten ++ p ∧
        ((Gs2 = [] ∧ p = []) ∨
          ∃ G t, Gs2 = G :: t ∧ p <+: G ∧ p.length < G.length) := by
  intro Gs
  induction Gs with
  | nil =>
    intro u v _ h
    have hu : u = [] := by
      have : u ++ v = [] := by simpa using h
      exact (List.append_eq_nil.mp this).1
    exact ⟨[], [], [], by simp, by simp [hu], Or.inl ⟨rfl, rfl⟩⟩
  | cons G t ih =>
    intro u v hne h
    have h1 : u <+: (G :: t).flatten := ⟨v, h⟩
    have h2 : G <+: (G :: t).flatten := by
      refine ⟨t.flatten, ?_⟩
      simp [List.flatten]
    by_cases hlen : u.length < G.length
    · have hu : u <+: G := List.prefix_of_prefix_length_le h1 h2 (le_of_lt hlen)
      exact ⟨[], G :: t, u, rfl, by simp, Or.inr ⟨G, t, rfl, hu, hlen⟩⟩
    · push_neg at hlen
      have hG : G <+: u := List.prefix_of_prefix_length_le h2 h1 hlen
      obtain ⟨u', rfl⟩ := hG
      have h' : u' ++ v = t.flatten := by
        have hj : G ++ (u' ++ v) = G ++ t.flatten := by
          have : (G ++ u') ++ v = G ++ t.flatten := by simpa [List.flatten] using h
          simpa [List.append_assoc] using this
        exact (List.append_right_inj G).mp hj
      obtain ⟨Gs1, Gs2, p, hGs, hu, hc2⟩ :=
        ih u' v (fun F hF => hne F (List.mem_cons_of_mem _ hF)) h'
      refine ⟨G :: Gs1, Gs2, p, by simp [hGs], ?_, hc2⟩
      simp [List.flatten, hu, List.append_assoc]

/-- StreamToPacket state: the framer and the two per-peer reassembly buffer
maps created empty by the constructor. -/
structure StreamToPacket where
  packetFn : Framer
  upstreamBuffer : BufferMap
  downstreamBuffer : BufferMap

/-- The constructor StreamToPacket.__init__(fn): empty buffer dicts. -/
def StreamToPacket.start (fn : Framer) : StreamToPacket :=
  ⟨fn, fun _ => [], fun _ => []⟩

/-- Each yielded packet of `chop` carries the source/destination/user_data of
the PDU being packetized (the generator's closure variable; see the note at
`packetize` on the loop-variable rebinding, which leaves these three fields
equal to the original PDU's on every yield). -/
def mkFramePDU (pdu : PDU) (f : List Byte) : PDU :=
  { pduData := f, pduSource := pdu.pduSource,
    pduDestination := pdu.pduDestination, pduUserData := pdu.pduUserData }

@[simp] lemma mkFramePDU_data (pdu : PDU) (f : List Byte) :
    (mkFramePDU pdu f).pduData = f := rfl

/-- The inner generator `chop(addr)` of StreamToPacket.packetize: append the
data to the buffer for addr, repeatedly extract frames, store the remainder
back. Returns the extracted frames and the updated buffer map. -/
def chop (fn : Framer) (addr : Addr) (data : List Byte) (σ : BufferMap) :
    List (List Byte) × BufferMap :=
  ((chopAll fn (σ addr ++ data)).1, updBuf σ addr (chopAll fn (σ addr ++ data)).2)

/-- The `if pdu.pduSource: for pdu in chop(pdu.pduSource): yield pdu` pass. -/
def srcPass (fn : Framer) (pdu : PDU) (σ : BufferMap) :
    List (List Byte) × BufferMap :=
  match pdu.pduSource with
  | some a => chop fn a pdu.pduData σ
  | none => ([], σ)

/-- Data seen by the destination pass of packetize. The Python `for pdu in
chop(...)` loop rebinds the closure variable `pdu`, so when the source pass
yielded at least one frame, the destination pass reads `pdu.pduData` from the
last yielded frame PDU instead of the original PDU. -/
def dstData (pdu : PDU) (fs1 : List (List Byte)) : List Byte :=
  match fs1.getLast? with
  | some f => f
  | none => pdu.pduData

/-- The `if pdu.pduDestination: for pdu in chop(pdu.pduDestination)` pass. -/
def dstPass (fn : Framer) (pdu : PDU) (fs1 : List (List Byte)) (σ : BufferMap) :
    List (List Byte) × BufferMap :=
  match pdu.pduDestination with
  | some d => chop fn d (dstData pdu fs1) σ
  | none => ([], σ)

/-- StreamToPacket.packetize(pdu, streamBuffer), run to exhaustion: the source
pass chops the buffer keyed by pdu.pduSource (when set), then the destination
pass chops the buffer keyed by pdu.pduDestination (when set). Returns the
yielded PDUs in order and the updated buffer map. -/
def packetize (fn : Framer) (pdu : PDU) (σ : BufferMap) : List PDU × BufferMap :=
  (((srcPass fn pdu σ).1 ++
      (dstPass fn pdu (srcPass fn pdu σ).1 (srcPass fn pdu σ).2).1).map (mkFramePDU pdu),
    (dstPass fn pdu (srcPass fn pdu σ).1 (srcPass fn pdu σ).2).2)

/-- StreamToPacket.indication: packetize against the downstream buffer and
request each packet downstream (returned in order). -/
def StreamToPacket.indication (s : StreamToPacket) (pdu : PDU) :
    List PDU × StreamToPacket :=
  ((packetize s.packetFn pdu s.downstreamBuffer).1,
    { s with downstreamBuffer := (packetize s.packetFn pdu s.downstreamBuffer).2 })

/-- StreamToPacket.confirmation: packetize against the upstream buffer and
respond each packet upstream (returned in order). -/
def StreamToPacket.confirmation (s : StreamToPacket) (pdu : PDU) :
    List PDU × StreamToPacket :=
  ((packetize s.packetFn pdu s.upstreamBuffer).1,
    { s with upstreamBuffer := (packetize s.packetFn pdu s.upstreamBuffer).2 })

/-- Feeding a sequence of upstream PDUs through confirmation, collecting the
PDUs emitted upstream in order. -/
def StreamToPacket.confirmList (s : StreamToPacket) :
    List PDU → List PDU × StreamToPacket
  | [] => ([], s)
  | p :: ps =>
    ((s.confirmation p).1 ++ (StreamToPacket.confirmList (s.confirmation p).2 ps).1,
      (StreamToPacket.confirmList (s.confirmation p).2 ps).2)

/-- One confirmation step for an upstream PDU (source set, no destination):
only the source pass runs, against the upstream buffer keyed by the source. -/
lemma confirmation_src_only (fn : Framer) (up down : BufferMap) (pdu : PDU)
    (a : Addr) (hsrc : pdu.pduSource = some a) (hdst : pdu.pduDestination = none) :
    StreamToPacket.confirmation ⟨fn, up, down⟩ pdu =
      ((chopAll fn (up a ++ pdu.pduData)).1.map (mkFramePDU pdu),
        ⟨fn, updBuf up a (chopAll fn (up a ++ pdu.pduData)).2, down⟩) := by
  simp [StreamToPacket.confirmation, packetize, srcPass, dstPass, chop, hsrc, hdst]

/-- Invariant induction for C1: starting from an upstream buffer for peer a
that is an incomplete front part of the stream, and feeding upstream PDUs
from a whose payloads complete the remaining frames, confirmation emits
exactly those frames and drains the buffer. -/
lemma confirmList_aligned (fn : Framer) (hc : FramerContract fn) (a : Addr) :
    ∀ (pdus : List PDU) (Gs : List (List Byte)) (up down : BufferMap),
      (∀ F ∈ Gs, IsFrame fn F) →
      (∀ p ∈ pdus, p.pduSource = some a ∧ p.pduDestination = none) →
      fn (up a) = none →
      up a ++ (pdus.map PDU.pduData).flatten = Gs.flatten →
      ((StreamToPacket.confirmList ⟨fn, up, down⟩ pdus).1.map PDU.pduData = Gs) ∧
        ((StreamToPacket.confirmList ⟨fn, up, down⟩ pdus).2.upstreamBuffer a = []) := by
  intro pdus
  induction pdus with
  | nil =>
    intro Gs up down hF _ hnone hjoin
    cases Gs with
    | nil =>
      have hup : up a = [] := by simpa using hjoin
      exact ⟨by simp [StreamToPacket.confirmList], by simp [StreamToPacket.confirmList, hup]⟩
    | cons G t =>
      exfalso
      have hup : up a = G ++ t.flatten := by simpa using hjoin
      have := hF G (List.mem_cons_self _ _) t.flatten
      rw [← hup, hnone] at this
      exact Option.noConfusion this
  | cons q ps ih =>
    intro Gs up down hF hsrc hnone hjoin
    obtain ⟨hqsrc, hqdst⟩ := hsrc q (List.mem_cons_self _ _)
    have hpre : (up a ++ q.pduData) ++ (ps.map PDU.pduData).flatten = Gs.flatten := by
      simpa [List.append_assoc] using hjoin
    obtain ⟨Gs1, Gs2, p', hGsplit, hu, hcase⟩ :=
      split_concat Gs (up a ++ q.pduData) _
        (fun F hF' => frame_ne_nil fn hc F (hF F hF')) hpre
    have hp'none : fn p' = none := by
      rcases hcase with ⟨_, hp⟩ | ⟨G, t, hGs2, hpfx, hlt⟩
      · subst hp; exact fn_nil_none fn hc
      · refine frame_none_of_proper fn hc G p' (hF G ?_) hpfx hlt
        rw [hGsplit, hGs2]
        exact List.mem_append_right _ (List.mem_cons_self _ _)
    have hchop : chopAll fn (up a ++ q.pduData) = (Gs1, p') := by
      rw [hu]
      exact chopAll_join fn hc Gs1 p'
        (fun F hF1 => hF F (hGsplit ▸ List.mem_append_left _ hF1)) hp'none
    have hstep := confirmation_src_only fn up down q a hqsrc hqdst
    rw [hchop] at hstep
    have hrest : updBuf up a p' a ++ (ps.map PDU.pduData).flatten = Gs2.flatten := by
      rw [updBuf_same]
      have h1 : (Gs1.flatten ++ p') ++ (ps.map PDU.pduData).flatten
          = Gs1.flatten ++ Gs2.flatten := by
        rw [← hu, hpre, hGsplit]
        simp
      rw [List.append_assoc] at h1
      exact (List.append_right_inj Gs1.flatten).mp h1
    have ihres := ih Gs2 (updBuf up a p') down
      (fun F hF2 => hF F (hGsplit ▸ List.mem_append_right _ hF2))
      (fun r hr => hsrc r (List.mem_cons_of_mem _ hr))
      (by rw [updBuf_same]; exact hp'none)
      hrest
    have hconf1 : (StreamToPacket.confirmation ⟨fn, up, down⟩ q).1
        = Gs1.map (mkFramePDU q) := by rw [hstep]
    have hconf2 : (StreamToPacket.confirmation ⟨fn, up, down⟩ q).2
        = ⟨fn, updBuf up a p', down⟩ := by rw [hstep]
    constructor
    · simp only [StreamToPacket.confirmList, List.map_append]
      rw [hconf1, hconf2, hGsplit, ihres.1, List.map_map]
      congr 1
      have hcomp : PDU.pduData ∘ mkFramePDU q = id := funext fun _ => rfl
      rw [hcomp, List.map_id]
    · simp only [StreamToPacket.confirmList]
      rw [hconf2]
      exact ihres.2

/-- C1: for every peer address and every framer satisfying the framer
contract, and for any sequence of upstream PDUs from that peer whose
concatenated payloads equal the concatenation of frames F1..Fn delivered in
arbitrary chunk sizes, StreamToPacket.confirmation emits exactly the PDUs
with payloads F1,...,Fn in that order, and after processing the per-peer
upstream buffer is empty iff the total number of bytes delivered equals the
sum of the frame lengths. -/
theorem C1_stream_framing_idempotence (fn : Framer) (hc : FramerContract fn)
    (Fs : List (List Byte)) (hF : ∀ F ∈ Fs, IsFrame fn F) (a : Addr)
    (pdus : List PDU)
    (hsrc : ∀ p ∈ pdus, p.pduSource = some a ∧ p.pduDestination = none)
    (hjoin : (pdus.map PDU.pduData).flatten = Fs.flatten) :
    (((StreamToPacket.start fn).confirmList pdus).1.map PDU.pduData = Fs) ∧
      (((StreamToPacket.start fn).confirmList pdus).2.upstreamBuffer a = [] ↔
        ((pdus.map PDU.pduData).map List.length).sum
          = (Fs.map List.length).sum) := by
  have h := confirmList_aligned fn hc a pdus Fs (fun _ => []) (fun _ => [])
    hF hsrc (fn_nil_none fn hc) (by simpa using hjoin)
  have hlen : ((pdus.map PDU.pduData).map List.length).sum
      = (Fs.map List.length).sum := by
    have := congrArg List.length hjoin
    simpa [List.length_flatten] using this
  exact ⟨h.1, iff_of_true h.2 hlen⟩

/-- A concrete conforming framer used by witnesses: fixed-size frames of two
bytes. -/
def fix2 : Framer :=
  fun b => if 2 ≤ b.length then some (b.take 2, b.drop 2) else none

lemma fix2_contract : FramerContract fix2 := by
  constructor
  · intro b f r h
    by_cases h2 : 2 ≤ b.length
    · simp only [fix2, if_pos h2, Option.some.injEq, Prod.mk.injEq] at h
      obtain ⟨hf, hr⟩ := h
      subst hf
      subst hr
      refine ⟨?_, List.take_append_drop 2 b⟩
      have : (b.take 2).length = 2 := by
        rw [List.length_take]
        omega
      intro hnil
      rw [hnil] at this
      simp at this
    · simp [fix2, h2] at h
  · intro b f r s h
    by_cases h2 : 2 ≤ b.length
    · simp only [fix2, if_pos h2, Option.some.injEq, Prod.mk.injEq] at h
      obtain ⟨hf, hr⟩ := h
      subst hf
      subst hr
      have h2' : 2 ≤ (b ++ s).length := by
        rw [List.length_append]
        omega
      simp only [fix2, if_pos h2', Option.some.injEq, Prod.mk.injEq]
      exact ⟨List.take_append_of_le_length h2, List.drop_append_of_le_length h2⟩
    · simp [fix2, h2] at h

lemma fix2_isFrame (F : List Byte) (h : F.length = 2) : IsFrame fix2 F := by
  intro s
  have h2 : 2 ≤ (F ++ s).length := by
    rw [List.length_append]
    omega
  have hle : 2 ≤ F.length := le_of_eq h.symm
  simp only [fix2, if_pos h2, List.take_append_of_le_length hle,
    List.drop_append_of_le_length hle, Option.some.injEq, Prod.mk.injEq]
  constructor
  · rw [← h]
    exact List.take_length F
  · rw [← h]
    simp [List.drop_length]

/-- Concrete upstream PDU sequence for the C1 witness: the stream of the two
frames [1,2] and [3,4] delivered in chunks [1], [2,3], [4] from peer 0. -/
def C1pdus : List PDU :=
  [⟨[1], some 0, none, none⟩, ⟨[2, 3], some 0, none, none⟩,
    ⟨[4], some 0, none, none⟩]

/-- C1 witness: the theorem applied to the fix2 framer and the chunked
delivery of frames [1,2], [3,4]. -/
theorem C1_stream_framing_idempotence_witness :
    (((StreamToPacket.start fix2).confirmList C1pdus).1.map PDU.pduData
        = [[1, 2], [3, 4]]) ∧
      (((StreamToPacket.start fix2).confirmList C1pdus).2.upstreamBuffer 0 = [] ↔
        ((C1pdus.map PDU.pduData).map List.length).sum
          = ([[1, 2], [3, 4]].map List.length).sum) := by
  have h := C1_stream_framing_idempotence fix2 fix2_contract [[1, 2], [3, 4]]
    (by
      intro F hmem
      simp only [List.mem_cons, List.not_mem_nil, or_false] at hmem
      rcases hmem with h1 | h1 <;> exact h1 ▸ fix2_isFrame _ (by decide))
    0 C1pdus (by decide) (by decide)
  exact h

/-- For a PDU with no source address and destination d, indication appends
the payload only to the downstream buffer keyed by d, extracts frames
repeatedly, emits each as its own PDU carrying the original addresses and
user data, and retains the incomplete remainder in that buffer. This is the
C2 claim restricted to PDUs whose source is unset; `C2_counterexample` shows
the restriction is necessary. -/
theorem C2_indication_source_unset (fn : Framer) (hc : FramerContract fn)
    (up down : BufferMap) (pdu : PDU) (d : Addr)
    (hsrc : pdu.pduSource = none) (hdst : pdu.pduDestination = some d) :
    StreamToPacket.indication ⟨fn, up, down⟩ pdu =
      ((chopAll fn (down d ++ pdu.pduData)).1.map (mkFramePDU pdu),
        ⟨fn, up, updBuf down d (chopAll fn (down d ++ pdu.pduData)).2⟩) ∧
      fn (chopAll fn (down d ++ pdu.pduData)).2 = none := by
  constructor
  · simp [StreamToPacket.indication, packetize, srcPass, dstPass, chop,
      dstData, hsrc, hdst]
  · exact chopAll_rem_none fn hc _

/-- A downstream PDU that carries both a source and a destination address. -/
def C2pdu : PDU := ⟨[9, 8, 7], some 1, some 2, none⟩

/-- C2 counterexample: for a PDU carrying both a source and a destination,
StreamToPacket.indication also chops (and here modifies) the downstream
buffer keyed by the SOURCE address 1, refuting the claim that the payload is
appended only to the buffer keyed by the destination. -/
theorem C2_counterexample :
    ((StreamToPacket.start fix2).indication C2pdu).2.downstreamBuffer 1 ≠
      (StreamToPacket.start fix2).downstreamBuffer 1 := by
  decide

/-- Concrete downstream PDU for the C2 witness. -/
def C2okPdu : PDU := ⟨[1, 2, 3], none, some 4, some 9⟩

/-- C2 witness: the amended theorem applied at the fix2 framer, empty
buffers, and a source-free PDU to destination 4. -/
theorem C2_indication_source_unset_witness :
    StreamToPacket.indication (StreamToPacket.start fix2) C2okPdu =
      ([⟨[1, 2], none, some 4, some 9⟩],
        ⟨fix2, fun _ => [], updBuf (fun _ => []) 4 [3]⟩) ∧
      fix2 [3] = none := by
  have h := C2_indication_source_unset fix2 fix2_contract
    (fun _ => []) (fun _ => []) C2okPdu 4 rfl rfl
  exact h

/-- REBIND_SLEEP_INTERVAL from tcp.py (seconds). -/
def REBIND_SLEEP_INTERVAL : ℚ := 2

/-- Observable outcome of the bind-retry loop of TCPServerDirector.__init__:
the number of warnings recorded (one per failed attempt), the sleeps taken
(one per failed attempt), and whether the success info message was emitted
(Python: `if hadBindErrors: _info('bind successful')`). -/
structure BindResult where
  warnings : Nat
  sleeps : List ℚ
  info : Bool
  deriving DecidableEq, Repr

/-- The `for i in range(n)` bind loop body starting at attempt i, with n
attempts left: try `socket.bind`; on `socket.error` record a warning, sleep
REBIND_SLEEP_INTERVAL, try again; when attempts are exhausted raise. The
parameter bindOk tells whether attempt i succeeds. Returns the number of
failed attempts and the sleeps taken before success. -/
def bindTry (bindOk : Nat → Bool) : Nat → Nat → Except String (Nat × List ℚ)
  | 0, _ => Except.error ("unable to bind")
  | n + 1, i =>
    if bindOk i then Except.ok (0, [])
    else
      match bindTry bindOk n (i + 1) with
      | Except.ok (k, s) => Except.ok (k + 1, REBIND_SLEEP_INTERVAL :: s)
      | Except.error e => Except.error e

/-- The bind-retry phase of TCPServerDirector.__init__: 30 attempts, then
`raise RuntimeError("unable to bind")`; on success the info message is
emitted iff there was at least one bind error. -/
def TCPServerDirector.bindRetry (bindOk : Nat → Bool) : Except String BindResult :=
  match bindTry bindOk 30 0 with
  | Except.ok (k, s) => Except.ok ⟨k, s, decide (0 < k)⟩
  | Except.error e => Except.error e

lemma bindTry_ok (bindOk : Nat → Bool) :
    ∀ n i k, k < n → (∀ j, j < k → bindOk (i + j) = false) →
      bindOk (i + k) = true →
      bindTry bindOk n i = Except.ok (k, List.replicate k REBIND_SLEEP_INTERVAL) := by
  intro n
  induction n with
  | zero => intro i k hk; omega
  | succ n ih =>
    intro i k hk hfail hsucc
    cases k with
    | zero =>
      simp only [bindTry]
      rw [if_pos (by simpa using hsucc)]
      rfl
    | succ k' =>
      have h0 : bindOk i = false := by simpa using hfail 0 (Nat.succ_pos _)
      have hrec : bindTry bindOk n (i + 1) =
          Except.ok (k', List.replicate k' REBIND_SLEEP_INTERVAL) := by
        refine ih (i + 1) k' (by omega) ?_ ?_
        · intro j hj
          have := hfail (j + 1) (by omega)
          simpa [Nat.add_assoc, Nat.add_comm 1 j] using this
        · have := hsucc
          simpa [Nat.add_assoc, Nat.add_comm 1 k'] using this
      simp only [bindTry]
      rw [if_neg (by simp [h0]), hrec]
      rfl

lemma bindTry_fail (bindOk : Nat → Bool) :
    ∀ n i, (∀ j, j < n → bindOk (i + j) = false) →
      bindTry bindOk n i = Except.error ("unable to bind") := by
  intro n
  induction n with
  | zero => intro i _; rfl
  | succ n ih =>
    intro i hfail
    have h0 : bindOk i = false := by simpa using hfail 0 (Nat.succ_pos _)
    have hrec := ih (i + 1) (fun j hj => by
      have := hfail (j + 1) (by omega)
      simpa [Nat.add_assoc, Nat.add_comm 1 j] using this)
    simp only [bindTry]
    rw [if_neg (by simp [h0]), hrec]

/-- C3: TCPServerDirector construction retries the bind up to 30 times at
2-second sleep intervals. If the bind fails on the first k < 30 attempts and
then succeeds, construction succeeds having recorded k warnings (one per
failed attempt, each followed by a 2-second sleep) and emits the success
info message when there was at least one failure; if all 30 attempts fail,
construction fails with the terminal error "unable to bind". -/
theorem C3_bind_retry :
    (∀ (bindOk : Nat → Bool) (k : Nat), k < 30 →
        (∀ j, j < k → bindOk j = false) → bindOk k = true →
        TCPServerDirector.bindRetry bindOk =
          Except.ok ⟨k, List.replicate k REBIND_SLEEP_INTERVAL, decide (0 < k)⟩) ∧
      (∀ bindOk : Nat → Bool, (∀ j, j < 30 → bindOk j = false) →
        TCPServerDirector.bindRetry bindOk = Except.error ("unable to bind")) := by
  constructor
  · intro bindOk k hk hfail hsucc
    have h := bindTry_ok bindOk 30 0 k hk
      (by intro j hj; simpa using hfail j hj) (by simpa using hsucc)
    simp [TCPServerDirector.bindRetry, h]
  · intro bindOk hfail
    have h := bindTry_fail bindOk 30 0 (by intro j hj; simpa using hfail j hj)
    simp [TCPServerDirector.bindRetry, h]

/-- C3 witness: a bind that fails on attempts 0..2 and succeeds on attempt 3,
and a bind that always fails. -/
theorem C3_bind_retry_witness :
    TCPServerDirector.bindRetry (fun i => decide (i = 3)) =
        Except.ok ⟨3, List.replicate 3 REBIND_SLEEP_INTERVAL, true⟩ ∧
      TCPServerDirector.bindRetry (fun _ => false) =
        Except.error ("unable to bind") := by
  constructor
  · have h := C3_bind_retry.1 (fun i => decide (i = 3)) 3 (by decide)
      (by decide) (by decide)
    simpa using h
  · exact C3_bind_retry.2 (fun _ => false) (fun _ _ => rfl)

/-- A server-side or pooled actor as far as the director maps are concerned:
its peer key plus a nonce distinguishing distinct actor objects. -/
structure ActorR where
  peer : Addr
  nonce : Nat
  deriving DecidableEq, Repr

/-- TCPServerDirector state relevant to indication: the pool of server
actors keyed by the connection's remote address. -/
structure TCPServerDirectorState where
  port : Addr
  servers : Addr → Option ActorR

/-- Dict lookup `self.servers.get(addr, None)` where addr may be Python None
(a PDU without a destination). -/
def TCPServerDirectorState.lookup (st : TCPServerDirectorState)
    (a : Option Addr) : Option ActorR :=
  match a with
  | some d => st.servers d
  | none => none

/-- TCPServerDirector.indication: look up the server actor for the PDU's
destination; with no actor, `raise RuntimeError("not a connected server")`.
The state is returned alongside so that the (un)changed server map is part
of the result: no branch modifies it. On success the indication is passed to
the returned actor. -/
def TCPServerDirector.indication (st : TCPServerDirectorState) (pdu : PDU) :
    Except String ActorR × TCPServerDirectorState :=
  match st.lookup pdu.pduDestination with
  | none => (Except.error ("not a connected server"), st)
  | some srv => (Except.ok srv, st)

/-- C4: for every PDU whose destination has no actor in the server map,
TCPServerDirector.indication raises the peer-not-connected error
("not a connected server") to the caller and leaves the director state —
the server map — unchanged (the server never dials out: no actor is
created). -/
theorem C4_server_unconnected_peer (st : TCPServerDirectorState) (pdu : PDU)
    (d : Addr) (hdst : pdu.pduDestination = some d)
    (hnone : st.servers d = none) :
    TCPServerDirector.indication st pdu =
      (Except.error ("not a connected server"), st) := by
  simp [TCPServerDirector.indication, TCPServerDirectorState.lookup, hdst, hnone]

/-- C4 witness: an empty server director and a PDU to peer 7. -/
theorem C4_server_unconnected_peer_witness :
    TCPServerDirector.indication ⟨1, fun _ => none⟩ ⟨[1], none, some 7, none⟩ =
      (Except.error ("not a connected server"), ⟨1, fun _ => none⟩) :=
  C4_server_unconnected_peer ⟨1, fun _ => none⟩ ⟨[1], none, some 7, none⟩ 7 rfl rfl

/-- A UDP actor (udp.py UDPActor): its peer (the dict key used by the
director, possibly Python None), the per-actor timeout captured from the
director, and the idle FunctionTask with its installed deadline (`none` when
`timeout <= 0`, so no reaping). A nonce distinguishes actor objects. -/
structure UActor where
  peer : Option Addr
  nonce : Nat
  timeout : ℚ
  timer : Option ℚ
  deriving DecidableEq, Repr

/-- Error notifications observed by the service access point element of a
UDP director (`sap_request(actor_error=actor, error=error)`). -/
inductive UDPEvent where
  | actorError (act : UActor) (err : Nat)
  deriving DecidableEq, Repr

/-- UDPDirector state: the actor pool keyed by peer address (a Python dict,
so the key can be None), the per-actor timeout configuration, the asyncio
transport (none before start_protocol / after loss; `some open?` once
created), and the vestigial outbound request queue. -/
structure UDPDirectorState where
  timeout : ℚ
  peers : Option Addr → Option UActor
  transport : Option Bool
  outQueue : List PDU

/-- UDPActor.__init__(director, peer): capture the director timeout and,
when positive, install the idle FunctionTask at now + timeout. -/
def UDPActor.create (st : UDPDirectorState) (peer : Option Addr) (n : Nat)
    (now : ℚ) : UActor :=
  ⟨peer, n, st.timeout, if 0 < st.timeout then some (now + st.timeout) else none⟩

/-- UDPDirector.add_actor: `self.peers[actor.peer] = actor`. -/
def UDPDirector.add_actor (st : UDPDirectorState) (act : UActor) :
    UDPDirectorState :=
  { st with peers := fun x => if x = act.peer then some act else st.peers x }

/-- UDPActor.handle_error: a non-None error is passed to the director as
actor_error (which notifies the service access point element); a None error
is dropped. -/
def UDPActor.handle_error (act : UActor) (err : Option Nat) : List UDPEvent :=
  match err with
  | some e => [UDPEvent.actorError act e]
  | none => []

/-- UDPDirector.handle_error as defined last in udp.py (the definition that
is in effect): it only logs; it neither closes anything nor notifies any
actor. -/
def UDPDirector.handle_error (st : UDPDirectorState) (_err : Nat) :
    UDPDirectorState × List UDPEvent :=
  (st, [])

/-- UDPDirector.close: `if self.transport: self.transport.close()`. Nothing
else — the actor map and the actors' timers are not touched. -/
def UDPDirector.close (st : UDPDirectorState) : UDPDirectorState :=
  match st.transport with
  | some _ => { st with transport := some false }
  | none => st

/-- UDPActor.indication: re-install the idle timer when present, then queue
the PDU on the director's request queue. Returns the updated director state
(with the updated actor stored back in the map) and the updated actor. -/
def UDPActor.indication (st : UDPDirectorState) (act : UActor) (pdu : PDU)
    (now : ℚ) : UDPDirectorState × UActor :=
  match act.timer with
  | some _ =>
    let act' : UActor := { act with timer := some (now + act.timeout) }
    ({ st with
        peers := fun x => if x = act.peer then some act' else st.peers x,
        outQueue := st.outQueue ++ [pdu] }, act')
  | none => ({ st with outQueue := st.outQueue ++ [pdu] }, act)

/-- The transport-send tail of UDPDirector.indication: `if self.transport:
try: self.transport.sendto(...) except Exception as err:
self.handle_error(err)`; with no transport nothing is sent. sendErr is
`some err` when the sendto raises. -/
def UDPDirector.trySend (st : UDPDirectorState) (sendErr : Option Nat) :
    UDPDirectorState × List UDPEvent :=
  match st.transport with
  | some _ =>
    match sendErr with
    | none => (st, [])
    | some err => UDPDirector.handle_error st err
  | none => (st, [])

lemma trySend_events (st : UDPDirectorState) (e : Option Nat) :
    (UDPDirector.trySend st e).2 = [] := by
  rcases h : st.transport with _ | b <;> rcases e with _ | err <;>
    simp [UDPDirector.trySend, UDPDirector.handle_error, h]

/-- UDPDirector.indication (the asyncio send path): find or create the actor
for the destination, deliver the indication to it, then send the payload via
the transport when one exists; `except Exception as err:
self.handle_error(err)`. sendErr is `some err` when `transport.sendto`
raises. Returns the new state and the error notifications delivered to the
service access point element. -/
def UDPDirector.indication (st : UDPDirectorState) (pdu : PDU) (n : Nat)
    (now : ℚ) (sendErr : Option Nat) : UDPDirectorState × List UDPEvent :=
  let addr := pdu.pduDestination
  let found := st.peers addr
  let act := match found with
    | some p => p
    | none => UDPActor.create st addr n now
  let st1 := match found with
    | some _ => st
    | none => UDPDirector.add_actor st act
  let st2 := (UDPActor.indication st1 act pdu now).1
  UDPDirector.trySend st2 sendErr

/-- UDPDirector.handle_write (the asyncore-era send path still present in
udp.py): take a PDU from the queue and sendto; on a socket error look up the
actor for the PDU's destination and let it handle the error, else let the
director handle it. -/
def UDPDirector.handle_write (st : UDPDirectorState) (pdu : PDU)
    (sendErr : Option Nat) : UDPDirectorState × List UDPEvent :=
  match sendErr with
  | none => (st, [])
  | some err =>
    match st.peers pdu.pduDestination with
    | some peer => (st, UDPActor.handle_error peer (some err))
    | none => UDPDirector.handle_error st err

/-- A UDP director with one live actor for peer 1 whose idle timer is
installed at deadline 10, and an open transport. -/
def C5state : UDPDirectorState :=
  ⟨30, fun x => if x = some 1 then some ⟨some 1, 0, 30, some 10⟩ else none,
    some true, []⟩

/-- C5 counterexample: after UDPDirector.close() the actor for peer 1 is
still in the director's peer map, with its idle FunctionTask still installed
(deadline 10) — refuting the claim that close() cancels all actor timers and
releases the actor map. -/
theorem C5_counterexample :
    (UDPDirector.close C5state).peers (some 1) = some ⟨some 1, 0, 30, some 10⟩ := by
  decide

/-- C5 (amended): UDPDirector.close() closes the transport when one exists
and does nothing else: the actor map — including every installed actor
timer — is unchanged, and so is the vestigial request queue. -/
theorem C5_close_closes_transport_only (st : UDPDirectorState) :
    (UDPDirector.close st).peers = st.peers ∧
      (UDPDirector.close st).transport = st.transport.map (fun _ => false) ∧
      (UDPDirector.close st).outQueue = st.outQueue := by
  cases h : st.transport with
  | none => simp [UDPDirector.close, h]
  | some b => simp [UDPDirector.close, h]

/-- C8 (amended): a send error on the asyncore-era handle_write path whose
PDU's destination has a live actor is delivered to exactly that actor via
UDPActor.handle_error, which forwards it to the director as actor_error; the
state (hence every other actor) is untouched. On the asyncio indication
path, a send error is passed to UDPDirector.handle_error instead, which
notifies no actor at all. -/
theorem C8_send_error_paths :
    (∀ (st : UDPDirectorState) (pdu : PDU) (err : Nat) (act : UActor),
        st.peers pdu.pduDestination = some act →
        UDPDirector.handle_write st pdu (some err) =
          (st, [UDPEvent.actorError act err])) ∧
      (∀ (st : UDPDirectorState) (pdu : PDU) (n : Nat) (now : ℚ) (err : Nat),
        (UDPDirector.indication st pdu n now (some err)).2 = []) := by
  constructor
  · intro st pdu err act h
    simp [UDPDirector.handle_write, h, UDPActor.handle_error]
  · intro st pdu n now err
    simp only [UDPDirector.indication]
    exact trySend_events _ _

/-- A UDP director with reaping disabled, a live actor for peer 1, and an
open transport; and a PDU addressed to peer 1. -/
def C8state : UDPDirectorState :=
  ⟨0, fun x => if x = some 1 then some ⟨some 1, 0, 0, none⟩ else none,
    some true, []⟩

/-- PDU to peer 1 used in the C8 counterexample and witness. -/
def C8pdu : PDU := ⟨[5, 5], none, some 1, none⟩

/-- C8 counterexample: peer 1 has a live actor in the map, yet when the
transport send in UDPDirector.indication fails, no actor_error notification
is produced at all — the error is not delivered to that peer's actor,
refuting the claim for the asyncio send path. -/
theorem C8_counterexample :
    C8state.peers (some 1) = some ⟨some 1, 0, 0, none⟩ ∧
      (UDPDirector.indication C8state C8pdu 0 0 (some 7)).2 = [] := by
  decide

/-- C8 witness: the handle_write path applied at a concrete failing send to
peer 1, which does deliver the error to peer 1's actor. -/
theorem C8_send_error_paths_witness :
    UDPDirector.handle_write C8state C8pdu (some 7) =
      (C8state, [UDPEvent.actorError ⟨some 1, 0, 0, none⟩ 7]) :=
  C8_send_error_paths.1 C8state C8pdu 7 ⟨some 1, 0, 0, none⟩ (by decide)

/-- The actor map of a director (UDP peers / TCP client clients / TCP server
servers), as a dict keyed by address. -/
abbrev ActorMap := Addr → Option ActorR

/-- `self.<map>[actor.peer] = actor` — every add_actor keys the entry by the
actor's own peer address. -/
def addActorMap (m : ActorMap) (act : ActorR) : ActorMap :=
  fun b => if b = act.peer then some act else m b

/-- `del self.<map>[actor.peer]` (for the TCP server director a missing key
only logs, which on the map is the same removal). -/
def delActorMap (m : ActorMap) (act : ActorR) : ActorMap :=
  fun b => if b = act.peer then none else m b

/-- The find-or-create step shared by UDPDirector.indication / _response,
TCPClientDirector.indication, and TCPClientDirector.connect (which returns
early when the address already has an actor): a fresh actor is constructed
with peer = the address dispatched on, and added via add_actor. -/
def ensureActorMap (m : ActorMap) (a : Addr) (n : Nat) : ActorMap :=
  match m a with
  | some _ => m
  | none => addActorMap m ⟨a, n⟩

/-- One step of any director's actor-map evolution, with a constructor for
each operation in the sources that touches the actor map. -/
inductive DirStep : ActorMap → ActorMap → Prop
  /-- UDPDirector.indication: find or create the actor for the destination. -/
  | udpIndication (m : ActorMap) (a : Addr) (n : Nat) :
      DirStep m (ensureActorMap m a n)
  /-- UDPDirector._response: find or create the actor for the source. -/
  | udpResponse (m : ActorMap) (a : Addr) (n : Nat) :
      DirStep m (ensureActorMap m a n)
  /-- TCPClientDirector.connect / .indication: return early when present,
  else create an actor for the address (which calls add_actor). -/
  | tcpClientConnect (m : ActorMap) (a : Addr) (n : Nat) :
      DirStep m (ensureActorMap m a n)
  /-- TCPServerDirector.start_serving: an accepted connection constructs an
  actor keyed by the accepted remote address and add_actor stores it
  (replacing any previous actor under that key). -/
  | tcpServerAccept (m : ActorMap) (a : Addr) (n : Nat) :
      DirStep m (addActorMap m ⟨a, n⟩)
  /-- del_actor in all three directors: remove the entry keyed by the
  actor's peer. -/
  | delActor (m : ActorMap) (act : ActorR) : DirStep m (delActorMap m act)
  /-- Director close: none of the close methods alters the actor map. -/
  | close (m : ActorMap) : DirStep m m

/-- The key discipline: every stored actor is keyed by its own peer. -/
def Keyed (m : ActorMap) : Prop :=
  ∀ a act, m a = some act → act.peer = a

lemma keyed_empty : Keyed (fun _ => none) := by
  intro a act h
  exact Option.noConfusion h

lemma keyed_add (m : ActorMap) (act : ActorR) (hm : Keyed m) :
    Keyed (addActorMap m act) := by
  intro a act' h
  by_cases ha : a = act.peer
  · subst ha
    simp [addActorMap] at h
    subst h
    rfl
  · rw [addActorMap, if_neg ha] at h
    exact hm a act' h

lemma keyed_step {m m' : ActorMap} (h : DirStep m m') (hm : Keyed m) :
    Keyed m' := by
  cases h with
  | udpIndication a n | udpResponse a n | tcpClientConnect a n =>
    unfold ensureActorMap
    cases hma : m a with
    | some _ => exact hm
    | none => exact keyed_add m ⟨a, n⟩ hm
  | tcpServerAccept a n => exact keyed_add m ⟨a, n⟩ hm
  | delActor act =>
    intro a act' h
    by_cases ha : a = act.peer
    · subst ha
      simp [delActorMap] at h
    · rw [delActorMap, if_neg ha] at h
      exact hm a act' h
  | close => exact hm

/-- Reachable actor maps: obtained from the initial empty pool by director
operations. -/
def DirReachable (m : ActorMap) : Prop :=
  Relation.ReflTransGen DirStep (fun _ => none) m

lemma keyed_reachable {m : ActorMap} (h : DirReachable m) : Keyed m := by
  induction h with
  | refl => exact keyed_empty
  | tail _ hstep ih => exact keyed_step hstep ih

/-- C6: in every reachable director state (UDP, TCP client or TCP server),
for every address a there is at most one live actor whose peer is a: any two
map entries holding an actor with peer a are the same entry holding the same
actor. Every operation (indication-driven creation, inbound dispatch,
connect, accept, del_actor, close) preserves this. -/
theorem C6_actor_uniqueness (m : ActorMap) (hreach : DirReachable m)
    (a : Addr) (b c : Addr) (act act' : ActorR)
    (hb : m b = some act) (hc : m c = some act')
    (hpa : act.peer = a) (hpa' : act'.peer = a) :
    b = c ∧ act = act' := by
  have hk := keyed_reachable hreach
  have hb' : b = a := by rw [← hpa]; exact (hk b act hb).symm
  have hc' : c = a := by rw [← hpa']; exact (hk c act' hc).symm
  subst hb'
  subst hc'
  refine ⟨rfl, ?_⟩
  have := hb.symm.trans hc
  exact Option.some.inj this

/-- C6 witness: the state after one indication-driven creation of an actor
for peer 5, where the uniqueness conclusion is checked for address 5. -/
theorem C6_actor_uniqueness_witness :
    5 = 5 ∧ (⟨5, 0⟩ : ActorR) = ⟨5, 0⟩ :=
  C6_actor_uniqueness (ensureActorMap (fun _ => none) 5 0)
    (Relation.ReflTransGen.single (DirStep.udpIndication _ 5 0))
    5 5 5 ⟨5, 0⟩ ⟨5, 0⟩ (by decide) (by decide) rfl rfl

/-- TCPClientDirector state relevant to reconnect scheduling: the client
pool, the reconnect backoff map, and the connect FunctionTasks installed by
del_actor as pairs (absolute fire time, peer to connect). -/
structure TCPClientDirectorState where
  clients : Addr → Option ActorR
  reconnect : Addr → Option ℚ
  tasks : List (ℚ × Addr)

/-- TCPClientDirector.connect(address, reconnect): return early when the
address already has a client; otherwise construct an actor (which calls
add_actor, storing it under the address) and, when the reconnect backoff is
nonzero, record it in the reconnect map. -/
def TCPClientDirector.connect (st : TCPClientDirectorState) (address : Addr)
    (reconnect : ℚ) (n : Nat) : TCPClientDirectorState :=
  if (st.clients address).isSome then st
  else
    let st1 := { st with
      clients := fun x => if x = address then some ⟨address, n⟩ else st.clients x }
    if reconnect ≠ 0 then
      { st1 with
        reconnect := fun x => if x = address then some reconnect else st.reconnect x }
    else st1

/-- TCPClientDirector.del_actor at wall-clock time now: remove the client,
and if its peer is in the reconnect map, install a FunctionTask calling
connect(peer) at now + backoff. -/
def TCPClientDirector.del_actor (st : TCPClientDirectorState) (act : ActorR)
    (now : ℚ) : TCPClientDirectorState :=
  let st1 := { st with
    clients := fun x => if x = act.peer then none else st.clients x }
  match st.reconnect act.peer with
  | some b => { st1 with tasks := st1.tasks ++ [(now + b, act.peer)] }
  | none => st1

/-- Modelled from the spec: the timer service (FunctionTask.install_task of
the task module, whose source is not part of this repository) schedules a
one-shot callback to "fire once at a monotonic wall-clock-compatible
deadline"; a task can fire at time t only when its deadline has been
reached. -/
def taskCanFire (task : ℚ × Addr) (t : ℚ) : Prop := task.1 ≤ t

/-- C7: after connect(a, reconnect = B) with B > 0 on a director without an
actor for a (and no connect task pending), closing a's actor through
del_actor at time t_closure installs exactly one connect task for a, with
fire time exactly t_closure + B; by the timer semantics it cannot fire
earlier than t_closure + B. -/
theorem C7_reconnect_schedule (st : TCPClientDirectorState) (a : Addr)
    (B : ℚ) (n : Nat) (tclosure : ℚ) (act : ActorR) (hB : 0 < B)
    (habsent : st.clients a = none) (htasks : st.tasks = [])
    (hact : (TCPClientDirector.connect st a B n).clients a = some act) :
    (TCPClientDirector.del_actor (TCPClientDirector.connect st a B n) act
        tclosure).tasks = [(tclosure + B, a)] ∧
      ∀ t : ℚ, taskCanFire (tclosure + B, a) t → tclosure + B ≤ t := by
  have hBne : B ≠ 0 := ne_of_gt hB
  have hconn : TCPClientDirector.connect st a B n =
      { st with
        clients := fun x => if x = a then some ⟨a, n⟩ else st.clients x,
        reconnect := fun x => if x = a then some B else st.reconnect x } := by
    rw [TCPClientDirector.connect, if_neg (by simp [habsent]), if_pos hBne]
  have hacteq : act = ⟨a, n⟩ := by
    rw [hconn] at hact
    simp at hact
    exact hact.symm
  constructor
  · rw [hconn, TCPClientDirector.del_actor, hacteq]
    simp [htasks]
  · intro t ht
    exact ht

/-- C7 witness: connect(peer 3, backoff 2) on an empty director, actor
closed at time 7: the connect task fires at 9 and not earlier. -/
theorem C7_reconnect_schedule_witness :
    (TCPClientDirector.del_actor
        (TCPClientDirector.connect ⟨fun _ => none, fun _ => none, []⟩ 3 2 0)
        ⟨3, 0⟩ 7).tasks = [((7 : ℚ) + 2, 3)] ∧
      ∀ t : ℚ, taskCanFire ((7 : ℚ) + 2, 3) t → (7 : ℚ) + 2 ≤ t :=
  C7_reconnect_schedule ⟨fun _ => none, fun _ => none, []⟩ 3 2 0 7 ⟨3, 0⟩
    (by norm_num) rfl rfl (by decide)

/-- UDPPickleActor.response: try `pickle.loads(pdu.pduData)`; on any
exception log and return (the datagram is dropped); otherwise continue as
UDPActor.response, re-installing the idle timer and forwarding the message
upstream. `loads` models pickle.loads, returning none when it would raise;
the value returned is `Except.ok (new timer deadline, message forwarded
upstream or none)` — an uncaught exception would be `Except.error`, and no
branch produces one. -/
def UDPPickleActor.response (loads : List Byte → Option Nat)
    (act : UActor) (data : List Byte) (now : ℚ) :
    Except String (UActor × Option Nat) :=
  match loads data with
  | none => Except.ok (act, none)
  | some msg =>
    match act.timer with
    | some _ => Except.ok ({ act with timer := some (now + act.timeout) }, some msg)
    | none => Except.ok (act, some msg)

/-- The `while (pos < strm.len): try: msg = pickle.load(strm) except: break`
loop of PickleActorMixIn.response, with fuel. loadS models pickle.load on
the stream positioned at the front of the buffer: the loaded message and the
unread rest, or none when it would raise. Returns the messages forwarded
upstream in order and the unconsumed bytes kept in pickleBuffer. -/
def pickleChopFuel (loadS : List Byte → Option (Nat × List Byte)) :
    Nat → List Byte → List Nat × List Byte
  | 0, buf => ([], buf)
  | fuel + 1, buf =>
    match loadS buf with
    | none => ([], buf)
    | some (m, rest) =>
      ((m :: (pickleChopFuel loadS fuel rest).1), (pickleChopFuel loadS fuel rest).2)

/-- PickleActorMixIn.response: append the incoming data to pickleBuffer,
greedily unpickle messages, forward each upstream, and keep whatever is left
over (`self.pickleBuffer = self.pickleBuffer[pos:]`). -/
def PickleActorMixIn.response (loadS : List Byte → Option (Nat × List Byte))
    (pickleBuffer data : List Byte) : List Nat × List Byte :=
  pickleChopFuel loadS ((pickleBuffer ++ data).length + 1) (pickleBuffer ++ data)

/-- C9 (amended): when deserialization of the buffer head fails, both pickle
actor variants return normally (no exception propagates) and forward no
message upstream for the bad bytes; UDPPickleActor.response drops the
datagram (the actor, its timer included, is untouched), while
PickleActorMixIn.response retains the unconsumed bytes in its pickleBuffer
rather than dropping them. -/
theorem C9_pickle_failure_local (loads : List Byte → Option Nat)
    (loadS : List Byte → Option (Nat × List Byte)) (act : UActor)
    (data buf : List Byte) (now : ℚ)
    (hload : loads data = none) (hloadS : loadS (buf ++ data) = none) :
    UDPPickleActor.response loads act data now = Except.ok (act, none) ∧
      PickleActorMixIn.response loadS buf data = ([], buf ++ data) := by
  constructor
  · simp [UDPPickleActor.response, hload]
  · simp [PickleActorMixIn.response, pickleChopFuel, hloadS]

/-- C9 witness: an always-failing deserializer on a concrete datagram and a
concrete stream chunk. -/
theorem C9_pickle_failure_local_witness :
    UDPPickleActor.response (fun _ => none) ⟨some 1, 0, 0, none⟩ [1, 2, 3] 0 =
        Except.ok (⟨some 1, 0, 0, none⟩, none) ∧
      PickleActorMixIn.response (fun _ => none) [] [1, 2, 3] = ([], [] ++ [1, 2, 3]) :=
  C9_pickle_failure_local (fun _ => none) (fun _ => none)
    ⟨some 1, 0, 0, none⟩ [1, 2, 3] [] 0 rfl rfl

/-- C9 counterexample: PickleActorMixIn.response does NOT drop the
unparseable bytes — after the failing load they are retained in the
pickleBuffer (here all three bytes survive the call), refuting the claim
that the variants drop the unparseable frame. -/
theorem C9_counterexample :
    (PickleActorMixIn.response (fun _ => none) [] [1, 2, 3]).2 ≠ [] := by
  decide

/-- TCPClientActor state relevant to indication: the pending flush
OneShotFunction, the idle FunctionTask with its deadline and period, the
request buffer and connection state of the underlying TCPClient, and the
log of bytes written to the transport. -/
structure TCPClientActorState where
  flush_task : Bool
  idle_deadline : Option ℚ
  idle_timeout : ℚ
  request : List Byte
  transport : Bool
  connected : Bool
  written : List Byte
  deriving DecidableEq, Repr

/-- TCPClientActor.indication: while a flush task is pending, downstream
data is tossed (immediate return); otherwise re-install the idle timer when
present and continue as TCPClient.indication, which stores the payload in
the request buffer and, when a transport exists and the client is connected,
writes it out and clears the buffer. -/
def TCPClientActor.indication (st : TCPClientActorState) (pdu : PDU)
    (now : ℚ) : TCPClientActorState :=
  if st.flush_task then st
  else
    let st1 := match st.idle_deadline with
      | some _ => { st with idle_deadline := some (now + st.idle_timeout) }
      | none => st
    let st2 := { st1 with request := pdu.pduData }
    if st2.transport && st2.connected then
      { st2 with written := st2.written ++ pdu.pduData, request := [] }
    else st2

/-- C10: while a TCP client actor has a pending flush task, indication
silently discards the PDU: the whole actor state — request buffer,
transport, written bytes and idle timer — is unchanged. -/
theorem C10_flush_discards_indication (st : TCPClientActorState) (pdu : PDU)
    (now : ℚ) (hflush : st.flush_task = true) :
    TCPClientActor.indication st pdu now = st := by
  rw [TCPClientActor.indication, if_pos hflush]

/-- C10 witness: a flushing actor with nonempty request buffer, an open
connected transport and an armed idle timer, receiving a concrete PDU. -/
theorem C10_flush_discards_indication_witness :
    TCPClientActor.indication ⟨true, some 5, 10, [1], true, true, []⟩
        ⟨[2, 3], none, some 1, none⟩ 4 =
      ⟨true, some 5, 10, [1], true, true, []⟩ :=
  C10_flush_discards_indication ⟨true, some 5, 10, [1], true, true, []⟩
    ⟨[2, 3], none, some 1, none⟩ 4 rfl

end BacSpec
